import Mathlib

/-!
# Verification of the f1live race-control relay

Shallow embedding of the two Python modules of the repository:

* `live.py`  — streaming variant: `split_message`, `format_message`,
  `process_messages` (SignalR poll loop posting to Bluesky).
* `hello.py` — polling variant: `fetch_f1_data`, `format_bluesky_message`,
  `create_hashtag_facets`, `post_to_bluesky`, `monitor_f1_data`.

Python strings are modelled as `List Char` (a Python `str` is a sequence of
Unicode code points; `len`, slicing and indexing are code-point based, matching
`List.length`, `List.take`/`List.drop` and `List.get?`).  Byte-level values
(`str.encode("utf-8")` lengths) are modelled with `Char.utf8Size`.
Python's `str.strip()` whitespace class is modelled by `Char.isWhitespace`.
-/

namespace F1Live

/-! ## Python string primitives -/

/-- Python whitespace test used by `str.strip()` / `str.split()`. -/
def isPyWs (c : Char) : Bool := c.isWhitespace

/-- Python `str.rstrip()`: remove trailing whitespace. -/
def pyRstrip : List Char → List Char
  | [] => []
  | c :: t =>
    match pyRstrip t with
    | [] => if isPyWs c then [] else [c]
    | r => c :: r

/-- Python `str.strip()`: remove leading and trailing whitespace. -/
def pyStrip (s : List Char) : List Char := pyRstrip (s.dropWhile isPyWs)

/-- Index of the last `' '` in `s`, if any (`str.rfind(" ", 0, stop)` is
`lastSpaceIdx (s.take stop)`, with `-1` rendered as `none`). -/
def lastSpaceIdx : List Char → Option Nat
  | [] => none
  | c :: t =>
    match lastSpaceIdx t with
    | some i => some (i + 1)
    | none => if c = ' ' then some 0 else none

/-- Python `str.split()` (no separator): split on whitespace runs, dropping
empty pieces. -/
def pyWords (s : List Char) : List (List Char) :=
  (s.splitOnP isPyWs).filter (fun w => !w.isEmpty)

/-- Python `text.index(pat)`: index of the first occurrence of `pat`.
(`.index` raises when `pat` does not occur; every call site passes a `pat`
that is a word of `text`, so the `[]`/not-found fallback value is dead.) -/
def pyIndexOf (pat : List Char) : List Char → Nat
  | [] => 0
  | c :: t => if List.isPrefixOf pat (c :: t) then 0 else 1 + pyIndexOf pat t

/-- Python `len(s.encode("utf-8"))` for a Python string `s`. -/
def utf8Len (l : List Char) : Nat := (l.map (fun c => c.utf8Size)).sum

/-- Number of (possibly overlapping) occurrences of `pat` inside `s`. -/
def countOccur (pat s : List Char) : Nat :=
  (List.range (s.length + 1)).countP (fun i => List.isPrefixOf pat (s.drop i))

/-! ## `live.py`: constants and `split_message` -/

/-- The literal `"..."` that `split_message` appends/prepends. -/
def dots : List Char := "...".data

/-- Constant `F1_HASHTAGS = "#F1 #Formula1 #AbuDhabiGP"` (live.py line 11). -/
def F1_HASHTAGS : List Char := "#F1 #Formula1 #AbuDhabiGP".data

/-- Constant `MAX_CHARS = 300` (live.py line 12). -/
def MAX_CHARS : Nat := 300

/-- The split position chosen by one iteration of `split_message`'s loop:
`split_index = current_part.rfind(" ", 0, max_length - 5)`, with fallback
`max_length - 5` when no space is found (live.py lines 20-22). -/
def splitIdx (maxLength : Nat) (cur : List Char) : Nat :=
  match lastSpaceIdx (cur.take (maxLength - 5)) with
  | some j => j
  | none => maxLength - 5

/-- The `while len(current_part) > max_length` loop of `split_message`
(live.py lines 19-27), with an explicit fuel bound standing in for Python's
unbounded iteration; `none` means the fuel ran out before the loop finished.
`splitGo_isSome` below shows that fuel `cur.length + 3` always suffices when
`maxLength > 10`, so the fuelled function is total on the use sites. -/
def splitGo (maxLength : Nat) : Nat → List Char → Option (List (List Char))
  | 0, cur => if cur.length ≤ maxLength then some [cur] else none
  | fuel + 1, cur =>
    if cur.length ≤ maxLength then some [cur]
    else
      let i := splitIdx maxLength cur
      (splitGo maxLength fuel (dots ++ pyStrip (cur.drop i))).map
        (fun rest => (cur.take i ++ dots) :: rest)

/-- Function `split_message(text, max_length)` (live.py lines 15-28). -/
def split_message (text : List Char) (maxLength : Nat) : List (List Char) :=
  (splitGo maxLength (text.length + 3) text).getD [text]

/-- Assignment `parts[-1] = parts[-1] + suffix` (live.py line 89). -/
def appendToLast (suffix : List Char) : List (List Char) → List (List Char)
  | [] => []
  | [p] => [p ++ suffix]
  | p :: q :: rest => p :: appendToLast suffix (q :: rest)

/-! ## Reconstruction of the original text from the emitted chunks

`joinIgnoringEllipses` removes exactly the ellipsis markers the splitter
added — the trailing `"..."` of every non-final chunk and the leading
`"..."` of every non-first chunk — and concatenates what is left.  This
renders the spec's phrase "concatenating the chunks, ignoring the added
ellipsis markers". -/

/-- Concatenate continuation chunks, removing their leading `"..."` and,
for all but the last, their trailing `"..."`. -/
def joinCont : List (List Char) → List Char
  | [] => []
  | [q] => q.drop 3
  | q :: r :: rest => (q.drop 3).take (q.length - 6) ++ joinCont (r :: rest)

/-- Concatenate all chunks, removing the added ellipsis markers. -/
def joinIgnoringEllipses : List (List Char) → List Char
  | [] => []
  | [p] => p
  | p :: q :: rest => p.take (p.length - 3) ++ joinCont (q :: rest)

example : split_message "abcde fghijklm".data 11 =
    ["abcde...".data, "...fghijklm".data] := by decide

example : joinIgnoringEllipses (split_message "abcde fghijklm".data 11) =
    "abcdefghijklm".data := by decide

/-! ## `live.py`: `format_message` -/

/-- The `msg_dict` handed to `format_message` (live.py lines 99-104).
`timeStr` carries the already-rendered `msg["Time"].strftime("%H:%M:%S UTC")`
string (live.py line 54); the `datetime` value itself is only ever observed
through that rendering. -/
structure LiveMsg where
  timeStr : List Char
  message : List Char
  flag : Option (List Char)
  category : List Char
deriving DecidableEq

/-- Table `category_emoji` (live.py lines 56-67). -/
def liveCategoryEmoji : List (List Char × List Char) :=
  [("Other".data, "ℹ️".data), ("Flag".data, "🚩".data), ("Drs".data, "📡".data),
   ("SafetyCar".data, "🚨".data), ("Incident".data, "💥".data),
   ("Track".data, "🛣️".data), ("Weather".data, "🌦️".data),
   ("Technical".data, "🔧".data), ("Timing".data, "⏱️".data),
   ("Stewards".data, "👨‍⚖️".data)]

/-- Table `flag_emoji` (live.py lines 73-79). -/
def liveFlagEmoji : List (List Char × List Char) :=
  [("GREEN".data, "🟢".data), ("RED".data, "🔴".data), ("YELLOW".data, "🟡".data),
   ("CHEQUERED".data, "🏁".data), ("CLEAR".data, "⚪".data)]

/-- Lookup `category_emoji.get(msg["Category"], "ℹ️")` (live.py line 69). -/
def catEmojiLive (c : List Char) : List Char :=
  (liveCategoryEmoji.lookup c).getD "ℹ️".data

/-- Lookup `{...}.get(msg["Flag"], "")` (live.py lines 73-79). -/
def flagEmojiLive (f : List Char) : List Char :=
  (liveFlagEmoji.lookup f).getD []

/-- Python truthiness of an optional string (`if msg["Flag"]:`): `None` and
the empty string are falsy. -/
def pyTruthy : Option (List Char) → Bool
  | none => false
  | some s => !s.isEmpty

/-- Value `base_text` of `format_message` (live.py lines 70-80): category emoji and
header, with the flag emoji prefixed when the flag is truthy. -/
def baseText (msg : LiveMsg) : List Char :=
  let b := catEmojiLive msg.category ++ " F1 Race Control (".data ++ msg.timeStr
    ++ "):\n".data ++ msg.message
  if pyTruthy msg.flag then flagEmojiLive (msg.flag.getD []) ++ " ".data ++ b
  else b

/-- Function `format_message(msg)` (live.py lines 53-90): return `[full_text]` when it
fits in `MAX_CHARS`, otherwise split `base_text` and append the hashtag
suffix to the last part only. -/
def format_message (msg : LiveMsg) : List (List Char) :=
  if (baseText msg ++ "\n\n".data ++ F1_HASHTAGS).length ≤ MAX_CHARS then
    [baseText msg ++ "\n\n".data ++ F1_HASHTAGS]
  else appendToLast ("\n\n".data ++ F1_HASHTAGS) (split_message (baseText msg) MAX_CHARS)

/-! ## `hello.py`: constants, formatter, dedup loop -/

/-- Constant `HASHTAGS = "#f1 #formula1 #live #AusGP #AustralianGP"` (hello.py line 12). -/
def HASHTAGS : List Char := "#f1 #formula1 #live #AusGP #AustralianGP".data

/-- Table `FLAG_EMOJIS` (hello.py lines 15-27). -/
def FLAG_EMOJIS : List (List Char × List Char) :=
  [("GREEN".data, "🟢".data), ("RED".data, "🔴".data), ("YELLOW".data, "🟡".data),
   ("DOUBLE_YELLOW".data, "🟡🟡".data), ("BLUE".data, "🔵".data),
   ("CHEQUERED".data, "🏁".data), ("BLACK".data, "⚫".data),
   ("BLACK_AND_ORANGE".data, "⚫🟧".data), ("BLACK_AND_WHITE".data, "⚫⚪".data),
   ("WHITE".data, "⚪".data), ("CLEAR".data, "⚪".data)]

/-- Table `CATEGORY_EMOJIS` (hello.py lines 29-43). -/
def CATEGORY_EMOJIS : List (List Char × List Char) :=
  [("Other".data, "ℹ️".data), ("Flag".data, "🚩".data), ("Drs".data, "📡".data),
   ("SafetyCar".data, "🚨".data), ("Incident".data, "💥".data),
   ("Track".data, "🛣️".data), ("Weather".data, "🌦️".data),
   ("Technical".data, "🔧".data), ("Timing".data, "⏱️".data),
   ("Stewards".data, "👨‍⚖️".data), ("SECTOR".data, "📍".data),
   ("TRACK_STATUS".data, "🏁".data), ("WARNING".data, "⚠️".data)]

/-- One race-control row as used by `monitor_f1_data`'s identity tuple
`(message, category, flag, scope, timestamp)` (hello.py lines 148-153).
`flag`/`scope` may be `None`; `timeStr` carries the already-rendered
`timestamp.strftime("%H:%M:%S UTC")` (hello.py line 88), the only way the
timestamp is observed by the formatter. -/
structure F1Row where
  message : List Char
  category : List Char
  flag : Option (List Char)
  scope : Option (List Char)
  timeStr : List Char
deriving DecidableEq

/-- Lookup `FLAG_EMOJIS.get(latest_message["flag"], "")` (hello.py line 84);
a `None` flag misses every key and yields the `""` default. -/
def hFlagEmoji : Option (List Char) → List Char
  | none => []
  | some s => (FLAG_EMOJIS.lookup s).getD []

/-- Lookup `CATEGORY_EMOJIS.get(latest_message["category"], "ℹ️")` (hello.py line 85). -/
def hCatEmoji (c : List Char) : List Char :=
  (CATEGORY_EMOJIS.lookup c).getD "ℹ️".data

/-- Function `format_bluesky_message` applied to the single-row frame built in
`monitor_f1_data` (hello.py lines 78-100): flag emoji, space, category emoji,
header, optional scope line, hashtag suffix. -/
def format_bluesky_message (r : F1Row) : List Char :=
  let m := hFlagEmoji r.flag ++ " ".data ++ hCatEmoji r.category
    ++ " F1 Race Control (".data ++ r.timeStr ++ "):\n".data ++ r.message
  let m2 := if pyTruthy r.scope then m ++ "\nScope: ".data ++ r.scope.getD [] else m
  m2 ++ "\n\n".data ++ HASHTAGS

/-- One iteration of `monitor_f1_data`'s dedup state update (hello.py lines
141-173): when the fetched batch is empty the tick is skipped (`if data:`),
otherwise `new_messages = current_messages - previous_messages` and
`previous_messages = current_messages` (replacement, not union).
Returns `(new_messages, previous_messages')`. -/
def dedupTick (prev : Finset F1Row) (batch : List F1Row) :
    Finset F1Row × Finset F1Row :=
  if batch.isEmpty then (∅, prev)
  else (batch.toFinset \ prev, batch.toFinset)

/-- The newly found messages of one `monitor_f1_data` iteration, as a list:
the elements of `current_messages - previous_messages`, each exactly once.
Python iterates this as a `set`, whose order is unspecified; the model fixes
batch order, which carries the same elements (`newMessages_toFinset`). -/
def newMessages (prev : Finset F1Row) (batch : List F1Row) : List F1Row :=
  if batch.isEmpty then [] else batch.dedup.filter (fun r => r ∉ prev)

/-- The texts posted in one iteration of `monitor_f1_data` (hello.py lines
156-171): one `format_bluesky_message` rendering per newly found message. -/
def monitorPosts (prev : Finset F1Row) (batch : List F1Row) : List (List Char) :=
  (newMessages prev batch).map format_bluesky_message

/-! ## `hello.py`: `create_hashtag_facets` -/

/-- One emitted facet: the `byteStart`/`byteEnd` index pair and the `tag`
feature (hello.py lines 113-120). -/
structure Facet where
  byteStart : Nat
  byteEnd : Nat
  tag : List Char
deriving DecidableEq

/-- The facet built for one `#`-word (hello.py lines 111-120):
`byte_start = len(text[:text.index(word)].encode("utf-8"))`,
`byte_end = byte_start + len(word.encode("utf-8"))`, `tag = word[1:]`. -/
def facetOfWord (text w : List Char) : Facet :=
  let bs := utf8Len (text.take (pyIndexOf w text))
  ⟨bs, bs + utf8Len w, w.drop 1⟩

/-- Function `create_hashtag_facets(text)` (hello.py lines 103-121): one facet per
whitespace-separated word starting with `#`. -/
def create_hashtag_facets (text : List Char) : List Facet :=
  (pyWords text).filterMap
    (fun w => if List.isPrefixOf "#".data w then some (facetOfWord text w) else none)

/-! ## `hello.py`: `fetch_f1_data`

The body is `urlopen(...)`, `response.read().decode("utf-8")`,
`json.loads(...)` inside `try ... except (URLError, json.JSONDecodeError)`.
The environment's contribution is modelled as a tree of outcomes: the HTTP
request either raises `URLError` or yields a body; decoding that body either
raises `UnicodeDecodeError` or yields text; parsing the text either raises
`json.JSONDecodeError` or yields a value.  `fetch_f1_data` maps each outcome
through the `try`/`except` of hello.py lines 50-55: only `URLError` and
`JSONDecodeError` are caught (returning `None`); any other exception
propagates. -/

/-- Exceptions reachable from `fetch_f1_data`'s body. -/
inductive PyExn where
  | urlErr
  | jsonDecodeErr
  | unicodeDecodeErr
deriving DecidableEq

/-- Outcome of `json.loads` on the decoded text. -/
inductive ParseOutcome where
  | jsonError
  | value (rows : List F1Row)
deriving DecidableEq

/-- Outcome of `response.read().decode("utf-8")`. -/
inductive DecodeOutcome where
  | unicodeError
  | text (p : ParseOutcome)
deriving DecidableEq

/-- Outcome of `urlopen(url + query)`. -/
inductive NetOutcome where
  | urlError
  | response (d : DecodeOutcome)
deriving DecidableEq

/-- Function `fetch_f1_data(url)` (hello.py lines 46-55) as a function of the
environment's outcome: `Except.ok` is a normal return (`none` = Python
`None`), `Except.error` is an uncaught exception escaping the function. -/
def fetch_f1_data : NetOutcome → Except PyExn (Option (List F1Row))
  | NetOutcome.urlError => Except.ok none
  | NetOutcome.response DecodeOutcome.unicodeError => Except.error PyExn.unicodeDecodeErr
  | NetOutcome.response (DecodeOutcome.text ParseOutcome.jsonError) => Except.ok none
  | NetOutcome.response (DecodeOutcome.text (ParseOutcome.value v)) => Except.ok (some v)

/-! ## `live.py`: `process_messages` and the Bluesky thread -/

/-- One raw streaming message (`msg` in `process_messages`, live.py line 94):
fields `Utc`, `Message`, `Flag` (maybe absent), `Category`. -/
structure RawMsg where
  utc : List Char
  message : List Char
  flag : Option (List Char)
  category : List Char
deriving DecidableEq

/-- Identity `msg_id = f"{msg['Utc']}_{msg['Message']}"` (live.py line 95). -/
def msgId (m : RawMsg) : List Char := m.utc ++ "_".data ++ m.message

/-- Rendering `datetime.fromisoformat(utc.replace("Z", "+00:00")).strftime("%H:%M:%S UTC")`
(live.py lines 100, 54), modelled on well-formed `YYYY-MM-DDTHH:MM:SS...`
strings by extracting the clock field of the ISO string directly. -/
def timeStrOfUtc (utc : List Char) : List Char :=
  (utc.drop 11).take 8 ++ " UTC".data

/-- The `msg_dict` built by `process_messages` (live.py lines 99-104). -/
def toLiveMsg (m : RawMsg) : LiveMsg :=
  ⟨timeStrOfUtc m.utc, m.message, m.flag, m.category⟩

/-- One observed `bsky.send_post` call: the text, the `reply_to` parent handle
(`none` for a root post), and the returned handle (`none` when the call
raised). -/
structure PostEvent where
  text : List Char
  replyTo : Option Nat
  handle : Option Nat
deriving DecidableEq

/-- The posting loop of `process_messages` (live.py lines 109-116): post the
first part as root, then each further part as a reply to the previous post's
handle.  `pub` models `bsky.send_post` (`none` = the call raises).  Returns
the list of attempted calls and whether all of them succeeded; a raise aborts
the remaining parts (the exception jumps to the handler). -/
def postThread (pub : List Char → Option Nat) :
    List (List Char) → Option Nat → List PostEvent × Bool
  | [], _ => ([], true)
  | p :: rest, parent =>
    match pub p with
    | none => ([⟨p, parent, none⟩], false)
    | some h =>
      let r := postThread pub rest (some h)
      (⟨p, parent, some h⟩ :: r.1, r.2)

/-- The per-message body of `process_messages` (live.py lines 94-121): skip
messages whose id is already in `processed_messages`; otherwise format and
post the thread inside `try`, and add the id to `processed_messages` only
when no call raised (the `add` on line 118 is skipped when the exception
jumps to the handler on line 120). -/
def processOne (pub : List Char → Option Nat) (processed : Finset (List Char))
    (m : RawMsg) : Finset (List Char) × List PostEvent :=
  if msgId m ∈ processed then (processed, [])
  else
    let r := postThread pub (format_message (toLiveMsg m)) none
    (if r.2 then insert (msgId m) processed else processed, r.1)

/-- Function `process_messages(messages, processed_messages, bsky, logger)`
(live.py lines 93-121): fold `processOne` over the batch, collecting every
`send_post` call made. -/
def process_messages (pub : List Char → Option Nat) (msgs : List RawMsg)
    (processed : Finset (List Char)) : Finset (List Char) × List PostEvent :=
  match msgs with
  | [] => (processed, [])
  | m :: rest =>
    let r := processOne pub processed m
    let r2 := process_messages pub rest r.1
    (r2.1, r.2 ++ r2.2)

/-- Predicate: `events` forms a linear reply chain hanging off `parent`: each event's
`reply_to` is the previous event's returned handle. -/
def isReplyChain : Option Nat → List PostEvent → Prop
  | _, [] => True
  | parent, e :: rest => e.replyTo = parent ∧ isReplyChain e.handle rest

/-! ## Sample data used to instantiate the theorems -/

/-- A plain race-control row. -/
def rowA : F1Row :=
  ⟨"LAP 1 DONE".data, "Other".data, none, none, "00:00:01 UTC".data⟩

/-- A second, distinct race-control row. -/
def rowB : F1Row :=
  ⟨"YELLOW IN S2".data, "Flag".data, some "YELLOW".data, some "Sector 2".data,
   "00:00:02 UTC".data⟩

/-- The row of the spec's safety-car scenario:
`{message:"SC DEPLOYED", category:"SafetyCar", flag:None}` (timestamp free). -/
def scRow (ts : List Char) : F1Row :=
  ⟨"SC DEPLOYED".data, "SafetyCar".data, none, none, ts⟩

/-- A concrete streaming message. -/
def rawM : RawMsg :=
  ⟨"2024-03-24T05:01:02Z".data, "RED FLAG".data, some "RED".data, "Flag".data⟩

/-- A publisher whose every `send_post` call raises. -/
def pubFail : List Char → Option Nat := fun _ => none

/-- A publisher that always succeeds, handing back the text length as the
post handle. -/
def pubLen : List Char → Nat := fun t => t.length

/-- A message whose text already contains `F1_HASHTAGS` verbatim. -/
def c4Msg : LiveMsg :=
  ⟨"12:00:00 UTC".data, "Race over #F1 #Formula1 #AbuDhabiGP".data, none,
   "Other".data⟩

/-! ## Support lemmas for the splitter -/

/-- The head, when present, is not whitespace.  Invariant of every
`current_part` after the first loop iteration (its first three characters are
`"..."` and the fourth starts the stripped remainder). -/
def HdOk (s : List Char) : Prop :=
  ∀ c, s.get? 0 = some c → isPyWs c = false

theorem lastSpaceIdx_spec (s : List Char) (j : Nat)
    (h : lastSpaceIdx s = some j) : j < s.length ∧ s.get? j = some ' ' := by
  induction s generalizing j with
  | nil => simp [lastSpaceIdx] at h
  | cons c t ih =>
    rw [lastSpaceIdx] at h
    cases ht : lastSpaceIdx t with
    | some i =>
      rw [ht] at h
      obtain rfl : i + 1 = j := by simpa using h
      have := ih i ht
      exact ⟨by simpa using this.1, by simpa using this.2⟩
    | none =>
      rw [ht] at h
      by_cases hc : c = ' '
      · obtain rfl : 0 = j := by simpa [hc] using h
        exact ⟨by simp, by simp [hc]⟩
      · simp [hc] at h

theorem splitIdx_le (L : Nat) (cur : List Char) : splitIdx L cur ≤ L - 5 := by
  rw [splitIdx]
  cases h : lastSpaceIdx (cur.take (L - 5)) with
  | some j =>
    have := (lastSpaceIdx_spec _ _ h).1
    rw [List.length_take] at this
    show j ≤ L - 5
    omega
  | none => show L - 5 ≤ L - 5; exact Nat.le_refl _

theorem splitIdx_lt (L : Nat) (cur : List Char) (hL : 11 ≤ L)
    (hlen : L < cur.length) : splitIdx L cur < cur.length := by
  have := splitIdx_le L cur
  omega

/-- A found split index addresses a space in `cur`. -/
theorem splitIdx_space (L : Nat) (cur : List Char) (j : Nat)
    (h : lastSpaceIdx (cur.take (L - 5)) = some j) : cur.get? j = some ' ' := by
  have hs := lastSpaceIdx_spec _ _ h
  have hj : j < L - 5 := by
    have := hs.1; rw [List.length_take] at this; omega
  have := hs.2
  rwa [List.get?_take hj] at this

theorem pyRstrip_length (l : List Char) : (pyRstrip l).length ≤ l.length := by
  induction l with
  | nil => simp [pyRstrip]
  | cons c t ih =>
    rw [pyRstrip]
    cases h : pyRstrip t with
    | nil =>
      by_cases hc : isPyWs c
      · simp [hc]
      · simp [hc]
    | cons r rs =>
      have : r :: rs = pyRstrip t := h.symm
      simp only [List.length_cons]
      have := ih
      rw [h] at this
      simpa using Nat.succ_le_succ this

theorem pyStrip_length (s : List Char) : (pyStrip s).length ≤ s.length :=
  Nat.le_trans (pyRstrip_length _)
    (by simpa using (List.dropWhile_suffix isPyWs (l := s)).sublist.length_le)

theorem pyStrip_cons_ws (c : Char) (t : List Char) (h : isPyWs c = true) :
    pyStrip (c :: t) = pyStrip t := by
  show pyRstrip ((c :: t).dropWhile isPyWs) = pyRstrip (t.dropWhile isPyWs)
  rw [List.dropWhile_cons, if_pos (by simp [h])]

/-- Dropping from a space position and stripping loses at least that space. -/
theorem pyStrip_drop_space (s : List Char) (i : Nat)
    (h : s.get? i = some ' ') :
    (pyStrip (s.drop i)).length + 1 + i ≤ s.length := by
  obtain ⟨hlt, hget⟩ := List.get?_eq_some.mp h
  have hdrop : s.drop i = ' ' :: s.drop (i + 1) := by
    rw [List.drop_eq_getElem_cons hlt]
    have hsp : s[i] = ' ' := by simpa using hget
    rw [hsp]
  rw [hdrop, pyStrip_cons_ws _ _ (by decide)]
  have h1 := pyStrip_length (s.drop (i + 1))
  have h2 : (s.drop (i + 1)).length = s.length - (i + 1) := List.length_drop _ _
  omega

theorem pyRstrip_head (l : List Char) (c : Char) (t : List Char)
    (h : pyRstrip l = c :: t) : l.get? 0 = some c := by
  cases l with
  | nil => simp [pyRstrip] at h
  | cons a u =>
    rw [pyRstrip] at h
    cases hu : pyRstrip u with
    | nil =>
      rw [hu] at h
      by_cases ha : isPyWs a
      · simp [ha] at h
      · have : [a] = c :: t := by simpa [ha] using h
        simp [List.cons.injEq] at this
        simp [this.1]
    | cons r rs =>
      rw [hu] at h
      have : a = c := (List.cons.injEq _ _ _ _ |>.mp h).1
      simp [this]

theorem dropWhile_head_not (p : Char → Bool) (l : List Char) (c : Char)
    (t : List Char) (h : l.dropWhile p = c :: t) : p c = false := by
  induction l with
  | nil => simp [List.dropWhile] at h
  | cons a u ih =>
    rw [List.dropWhile_cons] at h
    by_cases ha : p a
    · exact ih (by simpa [ha] using h)
    · have : a = c := (List.cons.injEq _ _ _ _ |>.mp (by simpa [ha] using h)).1
      rw [← this]
      simpa using ha

theorem hdOk_pyStrip (s : List Char) : HdOk (pyStrip s) := by
  intro c hc
  cases hp : pyStrip s with
  | nil => rw [hp] at hc; simp at hc
  | cons d t =>
    rw [hp] at hc
    obtain rfl : d = c := by simpa using hc
    have h0 := pyRstrip_head _ _ _ hp
    cases hd : s.dropWhile isPyWs with
    | nil =>
      unfold pyStrip at hp
      rw [hd] at hp
      simp [pyRstrip] at hp
    | cons e u =>
      have he : e = d := by
        unfold pyStrip at h0
        rw [hd] at h0
        simpa using h0
      rw [← he]
      exact dropWhile_head_not _ _ _ _ hd

/-- Fact: `splitIdx` never lands inside the leading `"..."` of a continuation
part: under the head invariant the first four positions hold no space. -/
theorem splitIdx_ge_four (L : Nat) (s : List Char) (hL : 11 ≤ L)
    (hs : HdOk s) : 4 ≤ splitIdx L (dots ++ s) := by
  rw [splitIdx]
  cases h : lastSpaceIdx ((dots ++ s).take (L - 5)) with
  | some j =>
    have hsp := splitIdx_space L (dots ++ s) j h
    by_contra hlt
    interval_cases j
    · simp [dots] at hsp
    · simp [dots] at hsp
    · simp [dots] at hsp
    · have : s.get? 0 = some ' ' := by
        simpa [dots] using hsp
      have := hs ' ' this
      simp [isPyWs] at this
  | none => show 4 ≤ L - 5; omega

/-! ## Termination and shape of `splitGo` -/

theorem splitGo_isSome_of_hdOk (L : Nat) (hL : 11 ≤ L) :
    ∀ (fuel : Nat) (s : List Char), HdOk s → 3 + s.length ≤ fuel →
      (splitGo L fuel (dots ++ s)).isSome = true := by
  intro fuel
  induction fuel with
  | zero => intro s _ hf; omega
  | succ n ih =>
    intro s hs hf
    rw [splitGo]
    by_cases hlen : (dots ++ s).length ≤ L
    · rw [if_pos hlen]; rfl
    · rw [if_neg hlen]
      have hlen' : L < (dots ++ s).length := by omega
      have hi4 : 4 ≤ splitIdx L (dots ++ s) := splitIdx_ge_four L s hL hs
      have hilt : splitIdx L (dots ++ s) < (dots ++ s).length :=
        splitIdx_lt L (dots ++ s) hL hlen'
      have hd3 : dots.length = 3 := rfl
      have hdropi : (dots ++ s).drop (splitIdx L (dots ++ s)) =
          s.drop (splitIdx L (dots ++ s) - 3) := by
        have hi3 : splitIdx L (dots ++ s) =
            dots.length + (splitIdx L (dots ++ s) - 3) := by omega
        conv_lhs => rw [hi3]
        exact List.drop_append _
      have hlen2 : 3 + (pyStrip (s.drop (splitIdx L (dots ++ s) - 3))).length ≤ n := by
        have h1 := pyStrip_length (s.drop (splitIdx L (dots ++ s) - 3))
        have h2 : (s.drop (splitIdx L (dots ++ s) - 3)).length =
            s.length - (splitIdx L (dots ++ s) - 3) := List.length_drop _ _
        have h4 : (dots ++ s).length = 3 + s.length := by simp [dots]; omega
        omega
      have hmain := ih (pyStrip (s.drop (splitIdx L (dots ++ s) - 3)))
        (hdOk_pyStrip _) hlen2
      simp only [Option.isSome_map', hdropi]
      exact hmain

/-- When the remaining text already fits, the loop body never runs. -/
theorem splitGo_base (L fuel : Nat) (cur : List Char) (h : cur.length ≤ L) :
    splitGo L fuel cur = some [cur] := by
  cases fuel with
  | zero => rw [splitGo, if_pos h]
  | succ n => rw [splitGo, if_pos h]

/-- The fuelled loop always emits at least the final chunk. -/
theorem splitGo_ne_nil (L fuel : Nat) (cur : List Char)
    (parts : List (List Char)) (h : splitGo L fuel cur = some parts) :
    parts ≠ [] := by
  cases fuel with
  | zero =>
    rw [splitGo] at h
    by_cases hlen : cur.length ≤ L
    · rw [if_pos hlen] at h
      obtain rfl : [cur] = parts := by simpa using h
      simp
    · rw [if_neg hlen] at h
      exact absurd h (by simp)
  | succ n =>
    rw [splitGo] at h
    by_cases hlen : cur.length ≤ L
    · rw [if_pos hlen] at h
      obtain rfl : [cur] = parts := by simpa using h
      simp
    · rw [if_neg hlen] at h
      obtain ⟨rest, -, rfl⟩ := Option.map_eq_some'.mp h
      simp

/-- Termination of the splitter: `text.length + 3` loop iterations always
suffice when the limit exceeds 10. -/
theorem splitGo_isSome (text : List Char) (L : Nat) (hL : 11 ≤ L) :
    (splitGo L (text.length + 3) text).isSome = true := by
  by_cases hlen : text.length ≤ L
  · rw [splitGo_base L _ text hlen]; rfl
  · rw [splitGo, if_neg hlen]
    rw [Option.isSome_map']
    have hlen' : L < text.length := by omega
    have hbound : (pyStrip (text.drop (splitIdx L text))).length + 1 ≤ text.length := by
      rw [splitIdx]
      cases h : lastSpaceIdx (text.take (L - 5)) with
      | some j =>
        have hsp := splitIdx_space L text j h
        have := pyStrip_drop_space text j hsp
        show (pyStrip (text.drop j)).length + 1 ≤ text.length
        omega
      | none =>
        show (pyStrip (text.drop (L - 5))).length + 1 ≤ text.length
        have h1 := pyStrip_length (text.drop (L - 5))
        have h2 : (text.drop (L - 5)).length = text.length - (L - 5) :=
          List.length_drop _ _
        omega
    have := splitGo_isSome_of_hdOk L hL (text.length + 2)
      (pyStrip (text.drop (splitIdx L text))) (hdOk_pyStrip _) (by omega)
    exact this

/-- Every chunk the loop emits fits in `maxLength` characters. -/
theorem splitGo_chunk_le (L : Nat) (hL : 11 ≤ L) :
    ∀ (fuel : Nat) (cur : List Char) (parts : List (List Char)),
      splitGo L fuel cur = some parts → ∀ p ∈ parts, p.length ≤ L := by
  intro fuel
  induction fuel with
  | zero =>
    intro cur parts h p hp
    rw [splitGo] at h
    by_cases hlen : cur.length ≤ L
    · rw [if_pos hlen] at h
      obtain rfl : [cur] = parts := by simpa using h
      obtain rfl : p = cur := by simpa using hp
      exact hlen
    · rw [if_neg hlen] at h
      exact absurd h (by simp)
  | succ n ih =>
    intro cur parts h p hp
    rw [splitGo] at h
    by_cases hlen : cur.length ≤ L
    · rw [if_pos hlen] at h
      obtain rfl : [cur] = parts := by simpa using h
      obtain rfl : p = cur := by simpa using hp
      exact hlen
    · rw [if_neg hlen] at h
      obtain ⟨rest, hrest, rfl⟩ := Option.map_eq_some'.mp h
      rcases List.mem_cons.mp hp with rfl | hmem
      · have h1 : (cur.take (splitIdx L cur)).length ≤ splitIdx L cur := by
          rw [List.length_take]; omega
        have h2 := splitIdx_le L cur
        have h3 : dots.length = 3 := rfl
        rw [List.length_append]
        omega
      · exact ih _ rest hrest p hmem

/-- Every non-final chunk the loop emits ends in the added `"..."`. -/
theorem splitGo_dropLast_dots (L : Nat) :
    ∀ (fuel : Nat) (cur : List Char) (parts : List (List Char)),
      splitGo L fuel cur = some parts →
      ∀ p ∈ parts.dropLast, ∃ s, s ++ dots = p := by
  intro fuel
  induction fuel with
  | zero =>
    intro cur parts h p hp
    rw [splitGo] at h
    by_cases hlen : cur.length ≤ L
    · rw [if_pos hlen] at h
      obtain rfl : [cur] = parts := by simpa using h
      simp at hp
    · rw [if_neg hlen] at h
      exact absurd h (by simp)
  | succ n ih =>
    intro cur parts h p hp
    rw [splitGo] at h
    by_cases hlen : cur.length ≤ L
    · rw [if_pos hlen] at h
      obtain rfl : [cur] = parts := by simpa using h
      simp at hp
    · rw [if_neg hlen] at h
      obtain ⟨rest, hrest, rfl⟩ := Option.map_eq_some'.mp h
      rw [List.dropLast_cons_of_ne_nil (splitGo_ne_nil _ _ _ _ hrest)] at hp
      rcases List.mem_cons.mp hp with rfl | hmem
      · exact ⟨_, rfl⟩
      · exact ih _ rest hrest p hmem

/-! ## What the chunks reconstruct -/

theorem pyRstrip_sublist (l : List Char) : List.Sublist (pyRstrip l) l := by
  induction l with
  | nil => simp [pyRstrip]
  | cons c t ih =>
    rw [pyRstrip]
    cases h : pyRstrip t with
    | nil =>
      by_cases hc : isPyWs c
      · simp [hc]
      · simp only [hc]
        show List.Sublist [c] (c :: t)
        exact (List.nil_sublist t).cons₂ c
    | cons r rs =>
      show List.Sublist (c :: r :: rs) (c :: t)
      rw [h] at ih
      exact ih.cons₂ c

theorem pyStrip_sublist (s : List Char) : List.Sublist (pyStrip s) s :=
  (pyRstrip_sublist _).trans (List.dropWhile_suffix isPyWs).sublist

theorem pyRstrip_eq_nil_filter (t : List Char) (h : pyRstrip t = []) :
    t.filter (fun c => !isPyWs c) = [] := by
  induction t with
  | nil => simp
  | cons c u ih =>
    rw [pyRstrip] at h
    cases hu : pyRstrip u with
    | nil =>
      rw [hu] at h
      by_cases hc : isPyWs c
      · rw [List.filter_cons]
        simp only [hc]
        simpa using ih hu
      · simp [hc] at h
    | cons r rs =>
      rw [hu] at h
      simp at h

theorem pyRstrip_filter (l : List Char) :
    (pyRstrip l).filter (fun c => !isPyWs c) = l.filter (fun c => !isPyWs c) := by
  induction l with
  | nil => simp [pyRstrip]
  | cons c t ih =>
    rw [pyRstrip]
    cases h : pyRstrip t with
    | nil =>
      have hft := pyRstrip_eq_nil_filter t h
      by_cases hc : isPyWs c
      · simp [List.filter_cons, hc, hft]
      · simp [List.filter_cons, hc, hft]
    | cons r rs =>
      show (c :: (r :: rs)).filter (fun c => !isPyWs c) =
        (c :: t).filter (fun c => !isPyWs c)
      rw [List.filter_cons, show (r :: rs) = pyRstrip t from h.symm, ih,
        List.filter_cons]

theorem dropWhile_filter (s : List Char) :
    (s.dropWhile isPyWs).filter (fun c => !isPyWs c) =
      s.filter (fun c => !isPyWs c) := by
  induction s with
  | nil => simp
  | cons c t ih =>
    rw [List.dropWhile_cons]
    by_cases hc : isPyWs c
    · rw [if_pos (by simp [hc]), List.filter_cons]
      simp only [hc]
      simpa using ih
    · rw [if_neg (by simp [hc])]

theorem pyStrip_filter (s : List Char) :
    (pyStrip s).filter (fun c => !isPyWs c) = s.filter (fun c => !isPyWs c) :=
  (pyRstrip_filter _).trans (dropWhile_filter s)

theorem joinCont_single (s : List Char) : joinCont [dots ++ s] = s := by
  show (dots ++ s).drop 3 = s
  have h := List.drop_left dots s
  rw [show dots.length = 3 from rfl] at h
  exact h

/-- Over the loop's invariant states (`"..." ++` a stripped remainder), the
continuation chunks reconstruct the remainder up to dropped whitespace: their
ellipsis-stripped concatenation is a sublist of the remainder carrying all of
its non-whitespace characters. -/
theorem joinCont_splitGo (L : Nat) (hL : 11 ≤ L) :
    ∀ (fuel : Nat) (s : List Char) (parts : List (List Char)), HdOk s →
      splitGo L fuel (dots ++ s) = some parts →
      List.Sublist (joinCont parts) s ∧
      (joinCont parts).filter (fun c => !isPyWs c) =
        s.filter (fun c => !isPyWs c) := by
  intro fuel
  induction fuel with
  | zero =>
    intro s parts hs hsp
    rw [splitGo] at hsp
    by_cases hlen : (dots ++ s).length ≤ L
    · rw [if_pos hlen] at hsp
      obtain rfl : [dots ++ s] = parts := by simpa using hsp
      rw [joinCont_single]
      exact ⟨List.Sublist.refl s, rfl⟩
    · rw [if_neg hlen] at hsp
      exact absurd hsp (by simp)
  | succ n ih =>
    intro s parts hs hsp
    rw [splitGo] at hsp
    by_cases hlen : (dots ++ s).length ≤ L
    · rw [if_pos hlen] at hsp
      obtain rfl : [dots ++ s] = parts := by simpa using hsp
      rw [joinCont_single]
      exact ⟨List.Sublist.refl s, rfl⟩
    · rw [if_neg hlen] at hsp
      obtain ⟨rest, hrest, rfl⟩ := Option.map_eq_some'.mp hsp
      have hlen' : L < (dots ++ s).length := by omega
      have hi4 : 4 ≤ splitIdx L (dots ++ s) := splitIdx_ge_four L s hL hs
      have hilt : splitIdx L (dots ++ s) < (dots ++ s).length :=
        splitIdx_lt L (dots ++ s) hL hlen'
      have hd3 : dots.length = 3 := rfl
      have hslen : (dots ++ s).length = 3 + s.length := by simp [dots]; omega
      have hdropi : (dots ++ s).drop (splitIdx L (dots ++ s)) =
          s.drop (splitIdx L (dots ++ s) - 3) := by
        have hi3 : splitIdx L (dots ++ s) =
            dots.length + (splitIdx L (dots ++ s) - 3) := by omega
        conv_lhs => rw [hi3]
        exact List.drop_append _
      have htakei : (dots ++ s).take (splitIdx L (dots ++ s)) =
          dots ++ s.take (splitIdx L (dots ++ s) - 3) := by
        have hi3 : splitIdx L (dots ++ s) =
            dots.length + (splitIdx L (dots ++ s) - 3) := by omega
        conv_lhs => rw [hi3]
        exact List.take_append _
      rw [hdropi] at hrest
      obtain ⟨hsub, hfil⟩ := ih (pyStrip (s.drop (splitIdx L (dots ++ s) - 3)))
        rest (hdOk_pyStrip _) hrest
      have hrne : rest ≠ [] := splitGo_ne_nil _ _ _ _ hrest
      obtain ⟨r, rest', rfl⟩ : ∃ r rest', rest = r :: rest' := by
        cases rest with
        | nil => exact absurd rfl hrne
        | cons r rest' => exact ⟨r, rest', rfl⟩
      have hklt : splitIdx L (dots ++ s) - 3 < s.length := by omega
      have hktake : (s.take (splitIdx L (dots ++ s) - 3)).length =
          splitIdx L (dots ++ s) - 3 := by
        rw [List.length_take]; omega
      have hq : ((dots ++ s).take (splitIdx L (dots ++ s)) ++ dots) =
          dots ++ (s.take (splitIdx L (dots ++ s) - 3) ++ dots) := by
        rw [htakei, List.append_assoc]
      have hjoin : joinCont (((dots ++ s).take (splitIdx L (dots ++ s)) ++ dots)
          :: r :: rest') =
          s.take (splitIdx L (dots ++ s) - 3) ++ joinCont (r :: rest') := by
        rw [joinCont, hq]
        congr 1
        have hdq : (dots ++ (s.take (splitIdx L (dots ++ s) - 3) ++ dots)).drop 3 =
            s.take (splitIdx L (dots ++ s) - 3) ++ dots := by
          have h := List.drop_left dots (s.take (splitIdx L (dots ++ s) - 3) ++ dots)
          rw [show dots.length = 3 from rfl] at h
          exact h
        have hlq : (dots ++ (s.take (splitIdx L (dots ++ s) - 3) ++ dots)).length - 6 =
            (s.take (splitIdx L (dots ++ s) - 3)).length := by
          simp only [List.length_append, hd3, hktake]
          omega
        rw [hdq, hlq]
        exact List.take_left _ _
      rw [hjoin]
      constructor
      · have h1 : List.Sublist (joinCont (r :: rest'))
            (s.drop (splitIdx L (dots ++ s) - 3)) :=
          hsub.trans (pyStrip_sublist _)
        have h2 := h1.append_left (s.take (splitIdx L (dots ++ s) - 3))
        rwa [List.take_append_drop] at h2
      · rw [List.filter_append, hfil, pyStrip_filter,
          ← List.filter_append, List.take_append_drop]

/-! ## Lifting the `splitGo` facts to `split_message` -/

theorem split_message_some (text : List Char) (L : Nat) (hL : 11 ≤ L) :
    ∃ parts, splitGo L (text.length + 3) text = some parts ∧
      split_message text L = parts := by
  obtain ⟨parts, hp⟩ := Option.isSome_iff_exists.mp (splitGo_isSome text L hL)
  exact ⟨parts, hp, by rw [split_message, hp]; rfl⟩

theorem split_message_chunk_le (text : List Char) (L : Nat) (hL : 11 ≤ L) :
    ∀ p ∈ split_message text L, p.length ≤ L := by
  obtain ⟨parts, hp, he⟩ := split_message_some text L hL
  rw [he]
  exact splitGo_chunk_le L hL _ _ _ hp

theorem split_message_ne_nil (text : List Char) (L : Nat) (hL : 11 ≤ L) :
    split_message text L ≠ [] := by
  obtain ⟨parts, hp, he⟩ := split_message_some text L hL
  rw [he]
  exact splitGo_ne_nil _ _ _ _ hp

theorem split_message_dropLast_dots (text : List Char) (L : Nat) (hL : 11 ≤ L) :
    ∀ p ∈ (split_message text L).dropLast, ∃ s, s ++ dots = p := by
  obtain ⟨parts, hp, he⟩ := split_message_some text L hL
  rw [he]
  exact splitGo_dropLast_dots L _ _ _ hp

/-- The emitted chunks, with the added ellipses removed, concatenate to the
original text minus some whitespace: a sublist carrying every
non-whitespace character. -/
theorem split_message_join (text : List Char) (L : Nat) (hL : 11 ≤ L) :
    List.Sublist (joinIgnoringEllipses (split_message text L)) text ∧
    (joinIgnoringEllipses (split_message text L)).filter (fun c => !isPyWs c) =
      text.filter (fun c => !isPyWs c) := by
  by_cases hlen : text.length ≤ L
  · have he : split_message text L = [text] := by
      rw [split_message, splitGo_base _ _ _ hlen]
      rfl
    rw [he]
    exact ⟨List.Sublist.refl text, rfl⟩
  · obtain ⟨parts, hp, he⟩ := split_message_some text L hL
    rw [he]
    rw [splitGo, if_neg hlen] at hp
    obtain ⟨rest, hrest, rfl⟩ := Option.map_eq_some'.mp hp
    have hrne := splitGo_ne_nil _ _ _ _ hrest
    obtain ⟨r, rest', rfl⟩ : ∃ r rest', rest = r :: rest' := by
      cases rest with
      | nil => exact absurd rfl hrne
      | cons r rest' => exact ⟨r, rest', rfl⟩
    have hlen' : L < text.length := by omega
    have hilt := splitIdx_lt L text hL hlen'
    have hjoin : joinIgnoringEllipses ((text.take (splitIdx L text) ++ dots)
        :: r :: rest') = text.take (splitIdx L text) ++ joinCont (r :: rest') := by
      rw [joinIgnoringEllipses]
      congr 1
      have hlq : (text.take (splitIdx L text) ++ dots).length - 3 =
          (text.take (splitIdx L text)).length := by
        rw [List.length_append, show dots.length = 3 from rfl]
        omega
      rw [hlq]
      exact List.take_left _ _
    rw [hjoin]
    obtain ⟨hsub, hfil⟩ := joinCont_splitGo L hL (text.length + 2)
      (pyStrip (text.drop (splitIdx L text))) _ (hdOk_pyStrip _) hrest
    constructor
    · have h1 := (hsub.trans (pyStrip_sublist _)).append_left
        (text.take (splitIdx L text))
      rwa [List.take_append_drop] at h1
    · rw [List.filter_append, hfil, pyStrip_filter, ← List.filter_append,
        List.take_append_drop]

/-! ## `appendToLast` facts -/

theorem appendToLast_ne_nil (suffix : List Char) (ps : List (List Char))
    (h : ps ≠ []) : appendToLast suffix ps ≠ [] := by
  cases ps with
  | nil => exact absurd rfl h
  | cons a t =>
    cases t with
    | nil => simp [appendToLast]
    | cons b t' => simp [appendToLast]

theorem appendToLast_chunk_le (suffix : List Char) (B : Nat) :
    ∀ (ps : List (List Char)), (∀ q ∈ ps, q.length ≤ B) →
      ∀ p ∈ appendToLast suffix ps, p.length ≤ B + suffix.length := by
  intro ps
  induction ps with
  | nil => intro _ p hp; simp [appendToLast] at hp
  | cons a t ih =>
    intro hq p hp
    cases t with
    | nil =>
      rw [appendToLast] at hp
      obtain rfl : p = a ++ suffix := by simpa using hp
      have := hq a (by simp)
      rw [List.length_append]
      omega
    | cons b t' =>
      rw [appendToLast] at hp
      rcases List.mem_cons.mp hp with rfl | hmem
      · have := hq p (by simp)
        omega
      · exact ih (fun q hq' => hq q (by simp [hq'])) p hmem

theorem appendToLast_dropLast (suffix : List Char) :
    ∀ (ps : List (List Char)), ps ≠ [] →
      (appendToLast suffix ps).dropLast = ps.dropLast := by
  intro ps
  induction ps with
  | nil => intro h; exact absurd rfl h
  | cons a t ih =>
    intro _
    cases t with
    | nil => rfl
    | cons b t' =>
      show (a :: appendToLast suffix (b :: t')).dropLast = (a :: b :: t').dropLast
      rw [List.dropLast_cons_of_ne_nil (appendToLast_ne_nil _ _ (by simp)),
        List.dropLast_cons_of_ne_nil (by simp : (b :: t') ≠ []),
        ih (by simp)]

theorem appendToLast_getLastD (suffix : List Char) :
    ∀ (ps : List (List Char)), ps ≠ [] → ∀ d,
      (appendToLast suffix ps).getLastD d = ps.getLastD d ++ suffix := by
  intro ps
  induction ps with
  | nil => intro h; exact absurd rfl h
  | cons a t ih =>
    intro _ d
    cases t with
    | nil => rfl
    | cons b t' =>
      show (a :: appendToLast suffix (b :: t')).getLastD d =
        (a :: b :: t').getLastD d ++ suffix
      rw [List.getLastD_cons, List.getLastD_cons]
      exact ih (by simp) a

/-! ## Claim C7: the splitter terminates -/

/-- Claim C7: For every text and limit `L > 10` the splitter's loop finishes —
within `text.length + 3` iterations — and `split_message` is its result. -/
theorem C7_splitter_terminates (text : List Char) (L : Nat) (hL : L > 10) :
    ∃ parts, splitGo L (text.length + 3) text = some parts ∧
      split_message text L = parts :=
  split_message_some text L (by omega)

/-- Witness for C7 at a concrete text and limit. -/
theorem C7_splitter_terminates_witness :
    ((11 : Nat) > 10) ∧
    ∃ parts, splitGo 11 ("abcde fghijklm".data.length + 3)
        "abcde fghijklm".data = some parts ∧
      split_message "abcde fghijklm".data 11 = parts :=
  ⟨by omega, C7_splitter_terminates "abcde fghijklm".data 11 (by omega)⟩

/-! ## Claim C1: chunk bounds and reconstruction -/

/-- Claim C1, counterexample: For the text `"abcde fghijklm"` and limit 11, the
splitter splits at the space and `strip()`s it away: concatenating the chunks
with the added ellipses removed yields `"abcdefghijklm"`, not the original
text — exact reconstruction fails. -/
theorem C1_counterexample :
    joinIgnoringEllipses (split_message "abcde fghijklm".data 11) ≠
      "abcde fghijklm".data := by decide

/-- Claim C1, amended: For every text and limit `L > 10`: every chunk emitted
by `split_message` itself has length at most `L`; concatenating the chunks
with the added ellipsis markers removed yields the original text with some
whitespace characters deleted (those stripped around each split point) — a
sublist of the text carrying all of its non-whitespace characters, but not
the exact text.  The final chunk of `format_message`, after the hashtag
suffix is appended, is not bounded by `MAX_CHARS` but by `MAX_CHARS` plus
the 27-character suffix length. -/
theorem C1_splitter_chunks_and_reconstruction (text : List Char) (L : Nat)
    (hL : L > 10) :
    (∀ p ∈ split_message text L, p.length ≤ L) ∧
    List.Sublist (joinIgnoringEllipses (split_message text L)) text ∧
    (joinIgnoringEllipses (split_message text L)).filter (fun c => !isPyWs c) =
      text.filter (fun c => !isPyWs c) ∧
    (∀ (msg : LiveMsg), ∀ p ∈ format_message msg,
      p.length ≤ MAX_CHARS + ("\n\n".data ++ F1_HASHTAGS).length) := by
  have hL' : 11 ≤ L := by omega
  obtain ⟨hsub, hfil⟩ := split_message_join text L hL'
  refine ⟨split_message_chunk_le text L hL', hsub, hfil, ?_⟩
  intro msg p hp
  rw [format_message] at hp
  by_cases hfull : (baseText msg ++ "\n\n".data ++ F1_HASHTAGS).length ≤ MAX_CHARS
  · rw [if_pos hfull] at hp
    obtain rfl : p = baseText msg ++ "\n\n".data ++ F1_HASHTAGS := by simpa using hp
    omega
  · rw [if_neg hfull] at hp
    exact appendToLast_chunk_le _ MAX_CHARS _
      (split_message_chunk_le (baseText msg) MAX_CHARS (by norm_num [MAX_CHARS]))
      p hp

/-- Witness for the amended C1 at the concrete text and limit of the
counterexample. -/
theorem C1_splitter_chunks_and_reconstruction_witness :
    ((11 : Nat) > 10) ∧
    ((∀ p ∈ split_message "abcde fghijklm".data 11, p.length ≤ 11) ∧
     List.Sublist (joinIgnoringEllipses (split_message "abcde fghijklm".data 11))
       "abcde fghijklm".data ∧
     (joinIgnoringEllipses
         (split_message "abcde fghijklm".data 11)).filter (fun c => !isPyWs c) =
       "abcde fghijklm".data.filter (fun c => !isPyWs c) ∧
     (∀ (msg : LiveMsg), ∀ p ∈ format_message msg,
       p.length ≤ MAX_CHARS + ("\n\n".data ++ F1_HASHTAGS).length)) :=
  ⟨by omega, C1_splitter_chunks_and_reconstruction "abcde fghijklm".data 11 (by omega)⟩

/-! ## Claim C2: dedup of nested batches -/

/-- Claim C2: For all message batches `B1`, `B2` with `B2 ⊇ B1`, running the
deduplicator on `B1` from an empty seen set and then on `B2` reports exactly
`B2 − B1` as new on the second call. -/
theorem C2_dedup_superset_difference (B1 B2 : List F1Row)
    (h : B1.toFinset ⊆ B2.toFinset) :
    (dedupTick (dedupTick ∅ B1).2 B2).1 = B2.toFinset \ B1.toFinset := by
  cases hb1 : B1.isEmpty with
  | true =>
    have : B1 = [] := List.isEmpty_iff.mp hb1
    subst this
    cases hb2 : B2.isEmpty with
    | true =>
      have : B2 = [] := List.isEmpty_iff.mp hb2
      subst this
      simp [dedupTick]
    | false => simp [dedupTick, hb2]
  | false =>
    cases hb2 : B2.isEmpty with
    | true =>
      have : B2 = [] := List.isEmpty_iff.mp hb2
      subst this
      simp [dedupTick, hb1]
    | false => simp [dedupTick, hb1, hb2]

/-- Witness for C2 at a concrete pair of batches. -/
theorem C2_dedup_superset_difference_witness :
    [rowA].toFinset ⊆ [rowA, rowB].toFinset ∧
    (dedupTick (dedupTick ∅ [rowA]).2 [rowA, rowB]).1 =
      [rowA, rowB].toFinset \ [rowA].toFinset :=
  ⟨by decide, C2_dedup_superset_difference [rowA] [rowA, rowB] (by decide)⟩

/-! ## Claim C10: the seen set is replaced, not united -/

/-- Claim C10: After a tick with a non-empty batch the seen set becomes exactly
the batch's identity set, so an identity absent from the current batch is
forgotten and is reported as new when it reappears in a later batch. -/
theorem C10_seen_set_replaced (prev : Finset F1Row) (b1 b2 : List F1Row)
    (x : F1Row) (h1 : b1 ≠ []) (h2 : x ∉ b1.toFinset) (h3 : x ∈ b2.toFinset) :
    (dedupTick prev b1).2 = b1.toFinset ∧
    x ∈ (dedupTick (dedupTick prev b1).2 b2).1 := by
  have hb1 : b1.isEmpty = false := by
    cases b1 with
    | nil => exact absurd rfl h1
    | cons a t => rfl
  have hb2 : b2.isEmpty = false := by
    cases b2 with
    | nil => simp at h3
    | cons a t => rfl
  refine ⟨by simp [dedupTick, hb1], ?_⟩
  simp [dedupTick, hb1, hb2]
  exact ⟨by simpa using h3, by simpa using h2⟩

/-- Witness for C10: `rowA` was seen once, vanished from the next batch, and
is reported as new when it comes back. -/
theorem C10_seen_set_replaced_witness :
    ([rowB] ≠ ([] : List F1Row)) ∧ rowA ∉ [rowB].toFinset ∧
      rowA ∈ [rowA].toFinset ∧
    ((dedupTick ∅ [rowB]).2 = [rowB].toFinset ∧
      rowA ∈ (dedupTick (dedupTick ∅ [rowB]).2 [rowA]).1) :=
  ⟨by decide, by decide, by decide,
    C10_seen_set_replaced ∅ [rowB] [rowA] rowA (by decide) (by decide) (by decide)⟩

/-! ## Claim C6: fetch error handling -/

/-- Claim C6, counterexample: A response body that fails UTF-8 decoding raises
`UnicodeDecodeError`, which the `except (URLError, json.JSONDecodeError)`
clause does not catch: `fetch_f1_data` propagates it instead of returning an
absent result. -/
theorem C6_counterexample :
    fetch_f1_data (NetOutcome.response DecodeOutcome.unicodeError) =
      Except.error PyExn.unicodeDecodeErr := rfl

/-- Claim C6, amended: The fetch returns normally (with `none`, "no data this
tick") on a network error (`URLError`) and on a JSON decode error; only a
Unicode decoding failure of the body escapes. -/
theorem C6_fetch_swallows_url_and_json_errors (o : NetOutcome)
    (h : o ≠ NetOutcome.response DecodeOutcome.unicodeError) :
    ∃ r : Option (List F1Row), fetch_f1_data o = Except.ok r := by
  cases o with
  | urlError => exact ⟨none, rfl⟩
  | response d =>
    cases d with
    | unicodeError => exact absurd rfl h
    | text p =>
      cases p with
      | jsonError => exact ⟨none, rfl⟩
      | value v => exact ⟨some v, rfl⟩

/-- Witness for the amended C6 at the network-error outcome. -/
theorem C6_fetch_swallows_url_and_json_errors_witness :
    (NetOutcome.urlError ≠ NetOutcome.response DecodeOutcome.unicodeError) ∧
    ∃ r : Option (List F1Row), fetch_f1_data NetOutcome.urlError = Except.ok r :=
  ⟨by decide, C6_fetch_swallows_url_and_json_errors NetOutcome.urlError (by decide)⟩

/-! ## Claim C5: hashtag facet byte offsets -/

/-- Claim C5: On `"hello #f1 world"` the facet computation yields exactly one
facet — for `#f1`, with `byteStart = 6`, `byteEnd = 9`, `tag = "f1"` — and in
general every emitted facet's `byteStart` is the UTF-8 byte length of a
code-point prefix of the text (a byte offset, not a character index), with
`byteEnd` adding the UTF-8 byte length of the `#`-word. -/
theorem C5_hashtag_facet_offsets :
    create_hashtag_facets "hello #f1 world".data =
      [⟨6, 9, "f1".data⟩] ∧
    ∀ (text : List Char) (f : Facet), f ∈ create_hashtag_facets text →
      ∃ (i : Nat) (w : List Char), i ≤ text.length ∧
        f.byteStart = utf8Len (text.take i) ∧
        f.tag = w ∧ f.byteEnd = f.byteStart + 1 + utf8Len w := by
  refine ⟨by decide, ?_⟩
  intro text f hf
  rw [create_hashtag_facets, List.mem_filterMap] at hf
  obtain ⟨w, -, hw⟩ := hf
  by_cases hp : List.isPrefixOf "#".data w
  · rw [if_pos hp, Option.some.injEq] at hw
    obtain ⟨t, ht⟩ := List.isPrefixOf_iff_prefix.mp hp
    have hwt : w = '#' :: t := ht.symm
    subst hwt
    refine ⟨min (pyIndexOf ('#' :: t) text) text.length, t, Nat.min_le_right _ _,
      ?_, ?_, ?_⟩
    · rw [← hw]
      show utf8Len (text.take (pyIndexOf ('#' :: t) text)) = _
      congr 1
      exact List.take_eq_take.mpr (by omega)
    · rw [← hw]; rfl
    · rw [← hw]
      show utf8Len (text.take (pyIndexOf ('#' :: t) text)) + utf8Len ('#' :: t) =
        utf8Len (text.take (pyIndexOf ('#' :: t) text)) + 1 + utf8Len t
      have : utf8Len ('#' :: t) = 1 + utf8Len t := by
        simp [utf8Len]
        decide
      omega
  · rw [if_neg hp] at hw
    exact absurd hw (by simp)

/-- Witness for C5's universal part at the facet of `"hello #f1 world"`. -/
theorem C5_hashtag_facet_offsets_witness :
    (⟨6, 9, "f1".data⟩ : Facet) ∈ create_hashtag_facets "hello #f1 world".data ∧
    ∃ (i : Nat) (w : List Char), i ≤ "hello #f1 world".data.length ∧
      (⟨6, 9, "f1".data⟩ : Facet).byteStart = utf8Len ("hello #f1 world".data.take i) ∧
      (⟨6, 9, "f1".data⟩ : Facet).tag = w ∧
      (⟨6, 9, "f1".data⟩ : Facet).byteEnd =
        (⟨6, 9, "f1".data⟩ : Facet).byteStart + 1 + utf8Len w :=
  ⟨by decide, C5_hashtag_facet_offsets.2 "hello #f1 world".data _ (by decide)⟩

/-! ## Claim C8: thread posting forms a linear reply chain -/

/-- With a publisher that never raises, `postThread` posts every part in
order, the first hanging off `parent` and each later one replying to the
handle returned for its predecessor. -/
theorem postThread_total_chain (f : List Char → Nat) :
    ∀ (parts : List (List Char)) (parent : Option Nat),
      ((postThread (fun t => some (f t)) parts parent).1.map (fun e => e.text)
          = parts) ∧
      isReplyChain parent (postThread (fun t => some (f t)) parts parent).1 := by
  intro parts
  induction parts with
  | nil => intro parent; exact ⟨rfl, trivial⟩
  | cons p rest ih =>
    intro parent
    have h := ih (some (f p))
    refine ⟨?_, ?_⟩
    · simpa [postThread] using h.1
    · exact ⟨rfl, by simpa [postThread] using h.2⟩

/-- Claim C8: For a message not yet processed, with every `send_post`
succeeding, the publisher submits the chunks of the formatted message in
order: the first as a root post (`reply_to = none`) and each subsequent chunk
as a reply to the handle returned for the previous chunk — a linear reply
chain in chunk order. -/
theorem C8_linear_reply_chain (f : List Char → Nat) (m : RawMsg)
    (processed : Finset (List Char)) (h : msgId m ∉ processed) :
    ((processOne (fun t => some (f t)) processed m).2.map (fun e => e.text)
        = format_message (toLiveMsg m)) ∧
    isReplyChain none (processOne (fun t => some (f t)) processed m).2 := by
  have hch := postThread_total_chain f (format_message (toLiveMsg m)) none
  rw [processOne, if_neg h]
  exact hch

/-- Witness for C8 at a concrete message and the length-handle publisher. -/
theorem C8_linear_reply_chain_witness :
    (msgId rawM ∉ (∅ : Finset (List Char))) ∧
    (((processOne (fun t => some (pubLen t)) ∅ rawM).2.map (fun e => e.text)
        = format_message (toLiveMsg rawM)) ∧
      isReplyChain none (processOne (fun t => some (pubLen t)) ∅ rawM).2) :=
  ⟨by simp, C8_linear_reply_chain pubLen rawM ∅ (by simp)⟩

/-! ## Claim C9: the safety-car scenario -/

/-- The single post text produced for the safety-car row. -/
theorem format_scRow (ts : List Char) :
    format_bluesky_message (scRow ts) =
      " ".data ++ ("🚨".data ++ (" F1 Race Control (".data ++ (ts ++
        ("):\n".data ++ ("SC DEPLOYED".data ++ ("\n\n".data ++ HASHTAGS)))))) := by
  have hc : hCatEmoji "SafetyCar".data = "🚨".data := by decide
  simp [format_bluesky_message, scRow, hFlagEmoji, pyTruthy, hc]

/-- Claim C9: Presenting `[{message:"SC DEPLOYED", category:"SafetyCar",
flag:None}]` to the polling pipeline with an empty seen set yields exactly
one new post; its text carries the `🚨` styling of the `SafetyCar` category
(`ℹ️` being the default for unmapped categories) and ends with the fixed
hashtag suffix; presenting the identical batch again yields zero new posts. -/
theorem C9_safety_car_scenario (ts : List Char) :
    (monitorPosts ∅ [scRow ts]).length = 1 ∧
    (∀ p ∈ monitorPosts ∅ [scRow ts],
      (∃ s u, s ++ ("🚨".data ++ u) = p) ∧
      (∃ s, s ++ ("\n\n".data ++ HASHTAGS) = p)) ∧
    hCatEmoji "SafetyCar".data = "🚨".data ∧
    hCatEmoji "NoSuchCategory".data = "ℹ️".data ∧
    monitorPosts (dedupTick ∅ [scRow ts]).2 [scRow ts] = [] := by
  have hone : monitorPosts ∅ [scRow ts] = [format_bluesky_message (scRow ts)] := by
    simp [monitorPosts, newMessages]
  refine ⟨by rw [hone]; rfl, ?_, by decide, by decide, ?_⟩
  · intro p hp
    rw [hone, List.mem_singleton] at hp
    subst hp
    rw [format_scRow]
    constructor
    · exact ⟨" ".data, _, rfl⟩
    · refine ⟨" ".data ++ ("🚨".data ++ (" F1 Race Control (".data ++ (ts ++
        ("):\n".data ++ "SC DEPLOYED".data)))), ?_⟩
      simp
  · simp [monitorPosts, newMessages, dedupTick]

/-- Witness for C9 at a concrete timestamp rendering. -/
theorem C9_safety_car_scenario_witness :
    (" 🚨 F1 Race Control (05:00:00 UTC):\nSC DEPLOYED\n\n#f1 #formula1 #live #AusGP #AustralianGP".data
        ∈ monitorPosts ∅ [scRow "05:00:00 UTC".data]) ∧
    ((∃ s u, s ++ ("🚨".data ++ u) =
        " 🚨 F1 Race Control (05:00:00 UTC):\nSC DEPLOYED\n\n#f1 #formula1 #live #AusGP #AustralianGP".data) ∧
      (∃ s, s ++ ("\n\n".data ++ HASHTAGS) =
        " 🚨 F1 Race Control (05:00:00 UTC):\nSC DEPLOYED\n\n#f1 #formula1 #live #AusGP #AustralianGP".data)) :=
  ⟨by decide,
    (C9_safety_car_scenario "05:00:00 UTC".data).2.1 _ (by decide)⟩

/-! ## Claim C4: hashtags appended exactly once -/

/-- Claim C4, counterexample: `format_message` performs no containment check: a
message whose text already contains the hashtag string ends up with two
occurrences of it in the produced output, not one. -/
theorem C4_counterexample :
    countOccur F1_HASHTAGS ((format_message c4Msg).flatten) = 2 := by decide

/-- Claim C4, amended: The formatter appends the hashtag suffix exactly once,
to the final chunk only: the output is some non-empty chunk list with
`"\n\nF1_HASHTAGS"` appended to its last element, every non-final chunk ends
with the ellipsis marker instead, and the final chunk ends with the suffix.
The append is unconditional — a message already containing the hashtag
string still gets the one suffix appended (and so carries the string twice,
as the counterexample shows). -/
theorem C4_hashtags_appended_once_to_final_chunk (msg : LiveMsg) :
    (∃ ps, ps ≠ [] ∧
      format_message msg = appendToLast ("\n\n".data ++ F1_HASHTAGS) ps) ∧
    (∀ p ∈ (format_message msg).dropLast, ∃ s, s ++ dots = p) ∧
    (∃ s, s ++ ("\n\n".data ++ F1_HASHTAGS) = (format_message msg).getLastD []) := by
  by_cases hfull : (baseText msg ++ "\n\n".data ++ F1_HASHTAGS).length ≤ MAX_CHARS
  · have he : format_message msg = [baseText msg ++ "\n\n".data ++ F1_HASHTAGS] := by
      rw [format_message, if_pos hfull]
    refine ⟨⟨[baseText msg], by simp,
      by rw [he]; simp [appendToLast, List.append_assoc]⟩, ?_, ?_⟩
    · rw [he]; simp
    · rw [he]
      exact ⟨baseText msg, by simp [List.append_assoc]⟩
  · have he : format_message msg =
        appendToLast ("\n\n".data ++ F1_HASHTAGS)
          (split_message (baseText msg) MAX_CHARS) := by
      rw [format_message, if_neg hfull]
    have hne : split_message (baseText msg) MAX_CHARS ≠ [] :=
      split_message_ne_nil _ _ (by norm_num [MAX_CHARS])
    refine ⟨⟨split_message (baseText msg) MAX_CHARS, hne, he⟩, ?_, ?_⟩
    · rw [he, appendToLast_dropLast _ _ hne]
      exact split_message_dropLast_dots _ _ (by norm_num [MAX_CHARS])
    · rw [he, appendToLast_getLastD _ _ hne]
      exact ⟨(split_message (baseText msg) MAX_CHARS).getLastD [], rfl⟩

/-- Witness for the amended C4 at the hashtag-carrying message. -/
theorem C4_hashtags_appended_once_to_final_chunk_witness :
    (∃ ps, ps ≠ [] ∧
      format_message c4Msg = appendToLast ("\n\n".data ++ F1_HASHTAGS) ps) ∧
    (∃ s, s ++ ("\n\n".data ++ F1_HASHTAGS) = (format_message c4Msg).getLastD []) :=
  ⟨(C4_hashtags_appended_once_to_final_chunk c4Msg).1,
    (C4_hashtags_appended_once_to_final_chunk c4Msg).2.2⟩

/-! ## Claim C3: behaviour after a publish failure -/

/-- Claim C3, counterexample: With a publisher whose every call raises, the
streaming pipeline does *not* drop the failed message: `processed_messages`
is left unchanged (the `add` is skipped by the exception), so presenting the
same message on the next tick produces publish attempts again. -/
theorem C3_counterexample :
    (process_messages pubFail [rawM]
        (process_messages pubFail [rawM] ∅).1).2 ≠ [] := by decide

/-- Claim C3, amended: In the streaming pipeline a message is skipped only
once its id is in `processed_messages`; a publish failure leaves the
processed set unchanged, so the message is *re-attempted* on every later
tick presenting it, while a fully successful publish marks it processed and
later ticks make zero attempts (at-most-once on success).  Only the polling
pipeline never redelivers: its seen set is replaced with the batch
regardless of publish outcomes, so re-presenting an identical batch yields
no new posts. -/
theorem C3_failed_publish_is_retried_not_dropped (pub : List Char → Option Nat)
    (m : RawMsg) (processed : Finset (List Char)) :
    (msgId m ∈ processed → (processOne pub processed m).2 = []) ∧
    ((postThread pub (format_message (toLiveMsg m)) none).2 = false →
      (processOne pub processed m).1 = processed) ∧
    ((postThread pub (format_message (toLiveMsg m)) none).2 = true →
      (processOne pub (processOne pub processed m).1 m).2 = []) ∧
    (∀ (prev : Finset F1Row) (batch : List F1Row), batch ≠ [] →
      monitorPosts (dedupTick prev batch).2 batch = []) := by
  refine ⟨?_, ?_, ?_, ?_⟩
  · intro h
    rw [processOne, if_pos h]
  · intro h
    by_cases hm : msgId m ∈ processed
    · rw [processOne, if_pos hm]
    · rw [processOne, if_neg hm]
      simp [h]
  · intro h
    by_cases hm : msgId m ∈ processed
    · have h1 : (processOne pub processed m).1 = processed := by
        rw [processOne, if_pos hm]
      rw [h1, processOne, if_pos hm]
    · have h1 : (processOne pub processed m).1 = insert (msgId m) processed := by
        rw [processOne, if_neg hm]
        simp [h]
      rw [h1, processOne, if_pos (Finset.mem_insert_self _ _)]
  · intro prev batch hb
    have hbe : batch.isEmpty = false := by
      cases batch with
      | nil => exact absurd rfl hb
      | cons a t => rfl
    rw [monitorPosts, dedupTick, if_neg (by simp [hbe])]
    rw [newMessages, if_neg (by simp [hbe])]
    have hfil : batch.dedup.filter (fun r => decide (r ∉ batch.toFinset)) = [] := by
      rw [List.filter_eq_nil]
      intro a ha
      simp [List.mem_toFinset, List.mem_dedup.mp ha]
    simp only [hfil]
    rfl

/-- Witness for the amended C3: the failing publisher leaves the processed
set unchanged, and the polling variant reports nothing for a repeated
batch. -/
theorem C3_failed_publish_is_retried_not_dropped_witness :
    ((postThread pubFail (format_message (toLiveMsg rawM)) none).2 = false) ∧
    ((processOne pubFail ∅ rawM).1 = ∅) ∧
    (([rowA] : List F1Row) ≠ []) ∧
    monitorPosts (dedupTick ∅ [rowA]).2 [rowA] = [] :=
  ⟨by decide,
    (C3_failed_publish_is_retried_not_dropped pubFail rawM ∅).2.1 (by decide),
    by decide,
    (C3_failed_publish_is_retried_not_dropped pubFail rawM ∅).2.2.2 ∅ [rowA]
      (by decide)⟩

end F1Live
